import Mathlib

/-!
Shallow embedding of the rollout-buffer / GAE training-loop subsystem of the
`mujoco-agents` repository (files `common.py` and `vpg.py`), with theorems
settling the specification claims.

Modelling conventions:
* numpy float arrays are modelled as `List ℚ` (exact arithmetic);
* observations and actions (fixed-shape numeric vectors) are modelled as
  `List ℚ` per slot, so buffers of them are `List (List ℚ)`;
* a Python `assert` failure is modelled by the operation returning `none`;
* `numpy.sqrt` on a rational is modelled by `ratSqrt`, exact on rationals
  whose numerator and denominator are perfect squares (in every use below the
  argument is `0`, where all square-root conventions agree);
* division by zero follows Lean's `q / 0 = 0` convention (noted where used).
-/

namespace MujocoAgents

/-- First-order IIR filter step underlying `scipy.signal.lfilter([1], [1, -d], xs)`
with zero initial conditions: `y n = xs n + d * y (n-1)`, threading the previous
output `prev`. -/
def lfilterStep (d : ℚ) : List ℚ → ℚ → List ℚ
  | [], _ => []
  | x :: xs, prev => (x + d * prev) :: lfilterStep d xs (x + d * prev)

/-- Embedding of `Buffer.discount_cumsum` (`common.py` line 132):
`scipy.signal.lfilter([1], [1, float(-discount)], x[::-1], axis=0)[::-1]`. -/
def discount_cumsum (x : List ℚ) (discount : ℚ) : List ℚ :=
  (lfilterStep discount x.reverse 0).reverse

/-- Right-to-left recurrence form of the discounted cumulative sum, as the spec
states it: `y k = x k` and `y i = x i + d * y (i+1)`. -/
def dcsRec (d : ℚ) : List ℚ → List ℚ
  | [] => []
  | x :: xs => (x + d * (dcsRec d xs).headD 0) :: dcsRec d xs

/-- Discounted sum of a whole list: `x0 + d*x1 + d^2*x2 + ...`. -/
def discountedSum (d : ℚ) : List ℚ → ℚ
  | [] => 0
  | x :: xs => x + d * discountedSum d xs

theorem lfilterStep_length (d : ℚ) (l : List ℚ) (p : ℚ) :
    (lfilterStep d l p).length = l.length := by
  induction l generalizing p with
  | nil => rfl
  | cons x xs ih => simp [lfilterStep, ih]

theorem lfilterStep_append_single (d : ℚ) (l : List ℚ) (a p : ℚ) :
    lfilterStep d (l ++ [a]) p
      = lfilterStep d l p ++ [a + d * (lfilterStep d l p).getLastD p] := by
  induction l generalizing p with
  | nil => simp [lfilterStep]
  | cons x xs ih =>
      show (x + d * p) :: lfilterStep d (xs ++ [a]) (x + d * p)
        = ((x + d * p) :: lfilterStep d xs (x + d * p))
          ++ [a + d * (((x + d * p) :: lfilterStep d xs (x + d * p)).getLastD p)]
      rw [ih, List.getLastD_cons]
      simp

theorem getLastD_eq_headD_reverse (l : List ℚ) (p : ℚ) :
    l.getLastD p = l.reverse.headD p := by
  cases l with
  | nil => rfl
  | cons x xs =>
      rw [List.getLastD_eq_getLast?, List.headD_eq_head?, ← List.head?_reverse]

/-- The `lfilter`-over-reversed-input implementation agrees with the
right-to-left recurrence. -/
theorem discount_cumsum_eq_dcsRec (x : List ℚ) (d : ℚ) :
    discount_cumsum x d = dcsRec d x := by
  induction x with
  | nil => rfl
  | cons a xs ih =>
      unfold discount_cumsum at *
      simp only [List.reverse_cons, lfilterStep_append_single, List.reverse_append,
        List.reverse_cons, List.reverse_nil, List.nil_append, List.singleton_append]
      rw [getLastD_eq_headD_reverse]
      rw [dcsRec]
      rw [ih]

theorem dcsRec_length (d : ℚ) (x : List ℚ) : (dcsRec d x).length = x.length := by
  induction x with
  | nil => rfl
  | cons a xs ih => simp [dcsRec, ih]

theorem discount_cumsum_length (x : List ℚ) (d : ℚ) :
    (discount_cumsum x d).length = x.length := by
  rw [discount_cumsum_eq_dcsRec, dcsRec_length]

theorem dcsRec_drop (d : ℚ) (x : List ℚ) (i : ℕ) :
    (dcsRec d x).drop i = dcsRec d (x.drop i) := by
  induction x generalizing i with
  | nil => simp [dcsRec]
  | cons a xs ih =>
      cases i with
      | zero => rfl
      | succ n => simpa [dcsRec] using ih n

theorem dcsRec_headD (d : ℚ) (x : List ℚ) :
    (dcsRec d x).headD 0 = discountedSum d x := by
  induction x with
  | nil => rfl
  | cons a xs ih =>
      show ((a + d * (dcsRec d xs).headD 0) :: dcsRec d xs).headD 0
        = a + d * discountedSum d xs
      rw [List.headD_cons, ih]

theorem dcsRec_getD (d : ℚ) (x : List ℚ) (i : ℕ) :
    (dcsRec d x).getD i 0 = discountedSum d (x.drop i) := by
  have h1 : (dcsRec d x).getD i 0 = ((dcsRec d x).drop i).headD 0 := by
    rw [List.getD_eq_getElem?_getD, List.headD_eq_head?, List.head?_drop]
  rw [h1, dcsRec_drop, dcsRec_headD]

theorem discountedSum_eq_sum (d : ℚ) (x : List ℚ) :
    discountedSum d x = ∑ j ∈ Finset.range x.length, d ^ j * x.getD j 0 := by
  induction x with
  | nil => simp [discountedSum]
  | cons a xs ih =>
      rw [discountedSum, ih]
      rw [List.length_cons, Finset.sum_range_succ']
      simp only [pow_succ, List.getD_cons_succ, List.getD_cons_zero, pow_zero, one_mul]
      rw [Finset.mul_sum, add_comm]
      congr 1
      exact Finset.sum_congr rfl (fun j _ => by ring)

theorem getD_drop (x : List ℚ) (i j : ℕ) :
    (x.drop i).getD j 0 = x.getD (i + j) 0 := by
  simp [List.getD_eq_getElem?_getD, List.getElem?_drop]

/-- Closed form of `discount_cumsum`: entry `i` is the discounted sum of the
suffix starting at `i`. -/
theorem discount_cumsum_getD (x : List ℚ) (d : ℚ) (i : ℕ) (h : i < x.length) :
    (discount_cumsum x d).getD i 0
      = ∑ j ∈ Finset.range (x.length - i), d ^ j * x.getD (i + j) 0 := by
  rw [discount_cumsum_eq_dcsRec, dcsRec_getD d x i, discountedSum_eq_sum]
  rw [List.length_drop]
  exact Finset.sum_congr rfl (fun j _ => by rw [getD_drop])

/-- Square root on ℚ, exact when numerator and denominator are perfect squares
(in particular `ratSqrt 0 = 0`); models `numpy.sqrt` where it is applied. -/
def ratSqrt (q : ℚ) : ℚ := (Nat.sqrt q.num.toNat : ℚ) / (Nat.sqrt q.den : ℚ)

/-- Maximum of a list, mirroring `numpy.max` reduction (0 on the empty list,
where numpy would raise). -/
def listMax : List ℚ → ℚ
  | [] => 0
  | a :: xs => xs.foldl max a

/-- Minimum of a list, mirroring `numpy.min` reduction. -/
def listMin : List ℚ → ℚ
  | [] => 0
  | a :: xs => xs.foldl min a

/-- Embedding of `get_stats` (`common.py` lines 11-14):
`mean = np.sum(x)/len(x)`; `std = np.sqrt(np.sum(x-mean)**2 / len(x))` (note:
the square is applied to the SUM of centered values); returns
`[mean, std, np.max(x), np.min(x)]`. -/
def get_stats (x : List ℚ) : ℚ × ℚ × ℚ × ℚ :=
  let mean := x.sum / (x.length : ℚ)
  let std := ratSqrt (((x.map (fun v => v - mean)).sum) ^ 2 / (x.length : ℚ))
  (mean, std, listMax x, listMin x)

theorem sum_map_sub_const (x : List ℚ) (m : ℚ) :
    (x.map (fun v => v - m)).sum = x.sum - (x.length : ℚ) * m := by
  induction x with
  | nil => simp
  | cons a xs ih =>
      simp only [List.map_cons, List.sum_cons, ih, List.length_cons]
      push_cast
      ring

theorem sum_centered_eq_zero (x : List ℚ) (h : x ≠ []) :
    (x.map (fun v => v - x.sum / (x.length : ℚ))).sum = 0 := by
  have h0 : x.length ≠ 0 := Nat.pos_iff_ne_zero.mp (List.length_pos.mpr h)
  have hlen : (x.length : ℚ) ≠ 0 := Nat.cast_ne_zero.mpr h0
  rw [sum_map_sub_const]
  field_simp

theorem ratSqrt_zero : ratSqrt 0 = 0 := by
  simp [ratSqrt]

theorem foldl_max_mem (l : List ℚ) : ∀ (a : ℚ), l.foldl max a ∈ a :: l := by
  induction l with
  | nil => intro a; simp
  | cons b xs ih =>
      intro a
      simp only [List.foldl_cons, List.mem_cons]
      rcases List.mem_cons.mp (ih (max a b)) with h | h
      · rcases max_choice a b with hm | hm
        · exact Or.inl (h.trans hm)
        · exact Or.inr (Or.inl (h.trans hm))
      · exact Or.inr (Or.inr h)

theorem le_foldl_max (l : List ℚ) : ∀ (a b : ℚ), b ∈ a :: l → b ≤ l.foldl max a := by
  induction l with
  | nil => intro a b hb; simp at hb; simp [hb]
  | cons c xs ih =>
      intro a b hb
      simp only [List.foldl_cons]
      rcases List.mem_cons.mp hb with h | h
      · subst h
        exact le_trans (le_max_left b c) (ih (max b c) _ (List.mem_cons_self _ _))
      · rcases List.mem_cons.mp h with h2 | h2
        · subst h2
          exact le_trans (le_max_right a b) (ih (max a b) _ (List.mem_cons_self _ _))
        · exact ih (max a c) b (List.mem_cons_of_mem _ h2)

theorem foldl_min_mem (l : List ℚ) : ∀ (a : ℚ), l.foldl min a ∈ a :: l := by
  induction l with
  | nil => intro a; simp
  | cons b xs ih =>
      intro a
      simp only [List.foldl_cons, List.mem_cons]
      rcases List.mem_cons.mp (ih (min a b)) with h | h
      · rcases min_choice a b with hm | hm
        · exact Or.inl (h.trans hm)
        · exact Or.inr (Or.inl (h.trans hm))
      · exact Or.inr (Or.inr h)

theorem foldl_min_le (l : List ℚ) : ∀ (a b : ℚ), b ∈ a :: l → l.foldl min a ≤ b := by
  induction l with
  | nil => intro a b hb; simp at hb; simp [hb]
  | cons c xs ih =>
      intro a b hb
      rcases List.mem_cons.mp hb with h | h
      · subst h
        exact le_trans (ih (min b c) _ (List.mem_cons_self _ _)) (min_le_left b c)
      · rcases List.mem_cons.mp h with h2 | h2
        · subst h2
          exact le_trans (ih (min a b) _ (List.mem_cons_self _ _)) (min_le_right a b)
        · exact ih (min a c) b (List.mem_cons_of_mem _ h2)

theorem listMax_mem (x : List ℚ) (h : x ≠ []) : listMax x ∈ x := by
  cases x with
  | nil => exact absurd rfl h
  | cons a xs => exact foldl_max_mem xs a

theorem le_listMax (x : List ℚ) (b : ℚ) (hb : b ∈ x) : b ≤ listMax x := by
  cases x with
  | nil => simp at hb
  | cons a xs => exact le_foldl_max xs a b hb

theorem listMin_mem (x : List ℚ) (h : x ≠ []) : listMin x ∈ x := by
  cases x with
  | nil => exact absurd rfl h
  | cons a xs => exact foldl_min_mem xs a

theorem listMin_le (x : List ℚ) (b : ℚ) (hb : b ∈ x) : listMin x ≤ b := by
  cases x with
  | nil => simp at hb
  | cons a xs => exact foldl_min_le xs a b hb

/-- The std component of `get_stats` collapses to 0 in exact arithmetic, for
every nonempty input. -/
theorem get_stats_std_eq_zero (x : List ℚ) (h : x ≠ []) :
    (get_stats x).2.1 = 0 := by
  unfold get_stats
  simp only
  rw [sum_centered_eq_zero x h]
  norm_num [ratSqrt_zero]

/-- Textbook population variance, used only to state spec-level properties
(non-degenerate input variance, normalized std): `sum((x-mean)^2)/N`. This is
the formula the spec contrasts with the source's `(sum(x-mean))^2/N`. -/
def popVariance (x : List ℚ) : ℚ :=
  (x.map (fun v => (v - x.sum / (x.length : ℚ)) ^ 2)).sum / (x.length : ℚ)

/-- Embedding of the `Buffer` object state (`common.py` lines 44-60). numpy
arrays are lists; `obs_buf`/`act_buf` hold fixed-shape vectors per slot. -/
structure Buffer where
  obs_buf : List (List ℚ)
  act_buf : List (List ℚ)
  adv_buf : List ℚ
  val_buf : List ℚ
  rew_buf : List ℚ
  ret_buf : List ℚ
  logp_buf : List ℚ
  gamma : ℚ
  lam : ℚ
  ptr : ℕ
  path_start_idx : ℕ
  max_size : ℕ
  deriving DecidableEq

/-- Embedding of `Buffer.__init__`: all arrays pre-allocated to zeros of
length `size`, `ptr = path_start_idx = 0`, `max_size = size`. -/
def Buffer.init (obs_dim act_dim size : ℕ) (gamma lam : ℚ) : Buffer :=
  { obs_buf := List.replicate size (List.replicate obs_dim 0)
    act_buf := List.replicate size (List.replicate act_dim 0)
    adv_buf := List.replicate size 0
    val_buf := List.replicate size 0
    rew_buf := List.replicate size 0
    ret_buf := List.replicate size 0
    logp_buf := List.replicate size 0
    gamma := gamma
    lam := lam
    ptr := 0
    path_start_idx := 0
    max_size := size }

/-- Embedding of `Buffer.store` (`common.py` lines 62-72). The `assert
self.ptr < self.max_size` is modelled by returning `none` (the Python
assertion raises before any field is modified). -/
def Buffer.store (b : Buffer) (obs act : List ℚ) (rew val logp : ℚ) :
    Option Buffer :=
  if b.ptr < b.max_size then
    some { b with
      obs_buf := b.obs_buf.set b.ptr obs
      act_buf := b.act_buf.set b.ptr act
      rew_buf := b.rew_buf.set b.ptr rew
      val_buf := b.val_buf.set b.ptr val
      logp_buf := b.logp_buf.set b.ptr logp
      ptr := b.ptr + 1 }
  else none

/-- Python slice `l[start:stop]` for `0 ≤ start ≤ stop`. -/
def sliceList (l : List ℚ) (start stop : ℕ) : List ℚ :=
  (l.take stop).drop start

/-- Overwrites `l[start : start + length v]` with the elements of `v`
(out-of-range writes are dropped, as `List.set` is); models the numpy slice
assignment `l[start:stop] = v` with `stop - start = length v`. -/
def writeSlice (l : List ℚ) (start : ℕ) : List ℚ → List ℚ
  | [] => l
  | v :: vs => writeSlice (l.set start v) (start + 1) vs

/-- Reward sub-sequence of the current path with the bootstrap appended:
`rews = np.append(self.rew_buf[path_slice], last_val)`. -/
def Buffer.pathRews (b : Buffer) (last_val : ℚ) : List ℚ :=
  sliceList b.rew_buf b.path_start_idx b.ptr ++ [last_val]

/-- Value sub-sequence of the current path with the bootstrap appended:
`vals = np.append(self.val_buf[path_slice], last_val)`. -/
def Buffer.pathVals (b : Buffer) (last_val : ℚ) : List ℚ :=
  sliceList b.val_buf b.path_start_idx b.ptr ++ [last_val]

/-- The GAE deltas: `deltas = rews[:-1] + self.gamma * vals[1:] - vals[:-1]`
(numpy elementwise arithmetic becomes `zipWith3`). -/
def Buffer.pathDeltas (b : Buffer) (last_val : ℚ) : List ℚ :=
  List.zipWith3 (fun r v1 v0 => r + b.gamma * v1 - v0)
    (b.pathRews last_val).dropLast (b.pathVals last_val).tail
    (b.pathVals last_val).dropLast

/-- Advantage values written for the segment:
`self.discount_cumsum(deltas, self.gamma * self.lam)`. -/
def Buffer.advSeg (b : Buffer) (last_val : ℚ) : List ℚ :=
  discount_cumsum (b.pathDeltas last_val) (b.gamma * b.lam)

/-- Return values written for the segment:
`self.discount_cumsum(rews, self.gamma)[:-1]`. -/
def Buffer.retSeg (b : Buffer) (last_val : ℚ) : List ℚ :=
  (discount_cumsum (b.pathRews last_val) b.gamma).dropLast

/-- Embedding of `Buffer.finish_path` (`common.py` lines 74-101). -/
def Buffer.finish_path (b : Buffer) (last_val : ℚ) : Buffer :=
  { b with
    adv_buf := writeSlice b.adv_buf b.path_start_idx (b.advSeg last_val)
    ret_buf := writeSlice b.ret_buf b.path_start_idx (b.retSeg last_val)
    path_start_idx := b.ptr }

/-- Embedding of `Buffer.get` (`common.py` lines 103-115). The `assert
self.ptr == self.max_size` is modelled by returning `none`. Returns the
post-call buffer state together with the returned 5-tuple
`[obs_buf, act_buf, adv_buf, ret_buf, logp_buf]`. With `adv_std = 0` the
division follows Lean's `q / 0 = 0` (IEEE would produce inf/NaN). -/
def Buffer.get (b : Buffer) :
    Option (Buffer × (List (List ℚ) × List (List ℚ) × List ℚ × List ℚ × List ℚ)) :=
  if b.ptr = b.max_size then
    let s := get_stats b.adv_buf
    let adv := b.adv_buf.map (fun a => (a - s.1) / s.2.1)
    some ({ b with ptr := 0, path_start_idx := 0, adv_buf := adv },
          (b.obs_buf, b.act_buf, adv, b.ret_buf, b.logp_buf))
  else none

/-- The buffer invariant of the spec: `0 <= path_start_idx <= ptr <= max_size`
(the lower bound is inherent in ℕ). -/
def Buffer.Inv (b : Buffer) : Prop :=
  b.path_start_idx ≤ b.ptr ∧ b.ptr ≤ b.max_size

/-- Well-formedness: every per-timestep array has length `max_size`. -/
def Buffer.WF (b : Buffer) : Prop :=
  b.obs_buf.length = b.max_size ∧ b.act_buf.length = b.max_size ∧
  b.adv_buf.length = b.max_size ∧ b.val_buf.length = b.max_size ∧
  b.rew_buf.length = b.max_size ∧ b.ret_buf.length = b.max_size ∧
  b.logp_buf.length = b.max_size

theorem writeSlice_length (v : List ℚ) :
    ∀ (l : List ℚ) (s : ℕ), (writeSlice l s v).length = l.length := by
  induction v with
  | nil => intro l s; rfl
  | cons x vs ih =>
      intro l s
      rw [writeSlice, ih, List.length_set]

theorem writeSlice_getD_outside (v : List ℚ) :
    ∀ (l : List ℚ) (s i : ℕ), (i < s ∨ s + v.length ≤ i) →
      (writeSlice l s v).getD i 0 = l.getD i 0 := by
  induction v with
  | nil => intro l s i _; rfl
  | cons x vs ih =>
      intro l s i hi
      rw [writeSlice]
      simp only [List.length_cons] at hi
      have hne : s ≠ i := by omega
      have h2 : i < s + 1 ∨ (s + 1) + vs.length ≤ i := by omega
      rw [ih (l.set s x) (s + 1) i h2]
      simp only [List.getD_eq_getElem?_getD, List.getElem?_set_ne hne]

theorem writeSlice_getD_inside (v : List ℚ) :
    ∀ (l : List ℚ) (s i : ℕ), i < v.length → s + i < l.length →
      (writeSlice l s v).getD (s + i) 0 = v.getD i 0 := by
  induction v with
  | nil => intro l s i hi _; simp at hi
  | cons x vs ih =>
      intro l s i hi hl
      rw [writeSlice]
      cases i with
      | zero =>
          have hlt : s < l.length := by omega
          rw [writeSlice_getD_outside vs (l.set s x) (s + 1) (s + 0) (by omega)]
          rw [Nat.add_zero, List.getD_cons_zero]
          simp [List.getD_eq_getElem?_getD, List.getElem?_set_self hlt]
      | succ n =>
          have h1 : s + (n + 1) = (s + 1) + n := by omega
          rw [h1]
          rw [ih (l.set s x) (s + 1) n (by simpa using hi)
            (by simp only [List.length_set]; omega)]
          rfl

theorem sliceList_length (l : List ℚ) (start stop : ℕ)
    (h1 : start ≤ stop) (h2 : stop ≤ l.length) :
    (sliceList l start stop).length = stop - start := by
  rw [sliceList, List.length_drop, List.length_take]
  omega

theorem sliceList_getD (l : List ℚ) (start stop i : ℕ) (h : start + i < stop) :
    (sliceList l start stop).getD i 0 = l.getD (start + i) 0 := by
  rw [sliceList]
  rw [getD_drop]
  simp only [List.getD_eq_getElem?_getD]
  rw [List.getElem?_take_of_lt h]

theorem zipWith3_length (f : ℚ → ℚ → ℚ → ℚ) :
    ∀ (as bs cs : List ℚ),
      (List.zipWith3 f as bs cs).length = min (min as.length bs.length) cs.length
  | [], _, _ => by simp [List.zipWith3]
  | _ :: _, [], _ => by simp [List.zipWith3]
  | _ :: _, _ :: _, [] => by simp [List.zipWith3]
  | a :: as, b :: bs, c :: cs => by
      simp only [List.zipWith3, List.length_cons, zipWith3_length f as bs cs]
      omega

theorem zipWith3_getD (f : ℚ → ℚ → ℚ → ℚ) :
    ∀ (as bs cs : List ℚ) (i : ℕ), i < as.length → i < bs.length → i < cs.length →
      (List.zipWith3 f as bs cs).getD i 0
        = f (as.getD i 0) (bs.getD i 0) (cs.getD i 0)
  | [], _, _, i, ha, _, _ => by simp at ha
  | _ :: _, [], _, i, _, hb, _ => by simp at hb
  | _ :: _, _ :: _, [], i, _, _, hc => by simp at hc
  | a :: as, b :: bs, c :: cs, 0, _, _, _ => by simp [List.zipWith3]
  | a :: as, b :: bs, c :: cs, n + 1, ha, hb, hc => by
      simp only [List.zipWith3, List.getD_cons_succ]
      exact zipWith3_getD f as bs cs n (by simpa using ha) (by simpa using hb)
        (by simpa using hc)

theorem getD_append_left (l : List ℚ) (a : ℚ) (i : ℕ) (h : i < l.length) :
    (l ++ [a]).getD i 0 = l.getD i 0 := by
  simp only [List.getD_eq_getElem?_getD, List.getElem?_append_left h]

theorem getD_append_last (l : List ℚ) (a : ℚ) :
    (l ++ [a]).getD l.length 0 = a := by
  simp only [List.getD_eq_getElem?_getD, List.getElem?_concat_length, Option.getD_some]

theorem getD_dropLast (l : List ℚ) (i : ℕ) (h : i < l.length - 1) :
    l.dropLast.getD i 0 = l.getD i 0 := by
  simp only [List.getD_eq_getElem?_getD, List.getElem?_dropLast]
  rw [if_pos h]

theorem getD_tail (l : List ℚ) (i : ℕ) : l.tail.getD i 0 = l.getD (i + 1) 0 := by
  simp only [List.getD_eq_getElem?_getD, List.getElem?_tail]

theorem pathRews_length (b : Buffer) (last_val : ℚ)
    (hsp : b.path_start_idx ≤ b.ptr) (hpr : b.ptr ≤ b.rew_buf.length) :
    (b.pathRews last_val).length = (b.ptr - b.path_start_idx) + 1 := by
  rw [Buffer.pathRews, List.length_append, sliceList_length _ _ _ hsp hpr]
  rfl

theorem pathVals_length (b : Buffer) (last_val : ℚ)
    (hsp : b.path_start_idx ≤ b.ptr) (hpv : b.ptr ≤ b.val_buf.length) :
    (b.pathVals last_val).length = (b.ptr - b.path_start_idx) + 1 := by
  rw [Buffer.pathVals, List.length_append, sliceList_length _ _ _ hsp hpv]
  rfl

theorem pathRews_getD_lt (b : Buffer) (last_val : ℚ) (i : ℕ)
    (hsp : b.path_start_idx ≤ b.ptr) (hpr : b.ptr ≤ b.rew_buf.length)
    (hi : i < b.ptr - b.path_start_idx) :
    (b.pathRews last_val).getD i 0 = b.rew_buf.getD (b.path_start_idx + i) 0 := by
  rw [Buffer.pathRews,
    getD_append_left _ _ _ (by rw [sliceList_length _ _ _ hsp hpr]; exact hi),
    sliceList_getD _ _ _ _ (by omega)]

theorem pathVals_getD_lt (b : Buffer) (last_val : ℚ) (i : ℕ)
    (hsp : b.path_start_idx ≤ b.ptr) (hpv : b.ptr ≤ b.val_buf.length)
    (hi : i < b.ptr - b.path_start_idx) :
    (b.pathVals last_val).getD i 0 = b.val_buf.getD (b.path_start_idx + i) 0 := by
  rw [Buffer.pathVals,
    getD_append_left _ _ _ (by rw [sliceList_length _ _ _ hsp hpv]; exact hi),
    sliceList_getD _ _ _ _ (by omega)]

theorem pathRews_getD_last (b : Buffer) (last_val : ℚ)
    (hsp : b.path_start_idx ≤ b.ptr) (hpr : b.ptr ≤ b.rew_buf.length) :
    (b.pathRews last_val).getD (b.ptr - b.path_start_idx) 0 = last_val := by
  rw [Buffer.pathRews]
  have h : b.ptr - b.path_start_idx
      = (sliceList b.rew_buf b.path_start_idx b.ptr).length := by
    rw [sliceList_length _ _ _ hsp hpr]
  rw [h, getD_append_last]

theorem pathVals_getD_last (b : Buffer) (last_val : ℚ)
    (hsp : b.path_start_idx ≤ b.ptr) (hpv : b.ptr ≤ b.val_buf.length) :
    (b.pathVals last_val).getD (b.ptr - b.path_start_idx) 0 = last_val := by
  rw [Buffer.pathVals]
  have h : b.ptr - b.path_start_idx
      = (sliceList b.val_buf b.path_start_idx b.ptr).length := by
    rw [sliceList_length _ _ _ hsp hpv]
  rw [h, getD_append_last]

theorem pathDeltas_length (b : Buffer) (last_val : ℚ)
    (hsp : b.path_start_idx ≤ b.ptr) (hpr : b.ptr ≤ b.rew_buf.length)
    (hpv : b.ptr ≤ b.val_buf.length) :
    (b.pathDeltas last_val).length = b.ptr - b.path_start_idx := by
  rw [Buffer.pathDeltas, zipWith3_length, List.length_dropLast, List.length_tail,
    List.length_dropLast, pathRews_length b last_val hsp hpr,
    pathVals_length b last_val hsp hpv]
  omega

/-- Entry `i` of the deltas array satisfies the GAE formula
`delta i = rews i + gamma * vals (i+1) - vals i`. -/
theorem pathDeltas_getD (b : Buffer) (last_val : ℚ) (i : ℕ)
    (hsp : b.path_start_idx ≤ b.ptr) (hpr : b.ptr ≤ b.rew_buf.length)
    (hpv : b.ptr ≤ b.val_buf.length) (hi : i < b.ptr - b.path_start_idx) :
    (b.pathDeltas last_val).getD i 0
      = (b.pathRews last_val).getD i 0
        + b.gamma * (b.pathVals last_val).getD (i + 1) 0
        - (b.pathVals last_val).getD i 0 := by
  have hr := pathRews_length b last_val hsp hpr
  have hv := pathVals_length b last_val hsp hpv
  rw [Buffer.pathDeltas, zipWith3_getD]
  · rw [getD_dropLast _ _ (by omega), getD_tail, getD_dropLast _ _ (by omega)]
  · rw [List.length_dropLast]; omega
  · rw [List.length_tail]; omega
  · rw [List.length_dropLast]; omega

theorem advSeg_length (b : Buffer) (last_val : ℚ)
    (hsp : b.path_start_idx ≤ b.ptr) (hpr : b.ptr ≤ b.rew_buf.length)
    (hpv : b.ptr ≤ b.val_buf.length) :
    (b.advSeg last_val).length = b.ptr - b.path_start_idx := by
  rw [Buffer.advSeg, discount_cumsum_length, pathDeltas_length b last_val hsp hpr hpv]

theorem retSeg_length (b : Buffer) (last_val : ℚ)
    (hsp : b.path_start_idx ≤ b.ptr) (hpr : b.ptr ≤ b.rew_buf.length) :
    (b.retSeg last_val).length = b.ptr - b.path_start_idx := by
  rw [Buffer.retSeg, List.length_dropLast, discount_cumsum_length,
    pathRews_length b last_val hsp hpr]
  omega

theorem retSeg_getD (b : Buffer) (last_val : ℚ) (i : ℕ)
    (hsp : b.path_start_idx ≤ b.ptr) (hpr : b.ptr ≤ b.rew_buf.length)
    (hi : i < b.ptr - b.path_start_idx) :
    (b.retSeg last_val).getD i 0
      = (discount_cumsum (b.pathRews last_val) b.gamma).getD i 0 := by
  rw [Buffer.retSeg, getD_dropLast]
  rw [discount_cumsum_length, pathRews_length b last_val hsp hpr]
  omega

/-! Embedding of the training loop of `vpg.py` (`vpg` function, lines 92-129).
The environment (`gym` World) and the Learner (the TensorFlow session runs) are
the external collaborators; they are modelled as deterministic functions. -/

/-- A World collaborator: `reset` yields a fresh internal state and the reset
observation; `step` consumes the internal state and an action and yields
`(state, observation, reward, done)`. -/
structure World (σ : Type) where
  resetState : σ
  resetObs : List ℚ
  step : σ → List ℚ → σ × List ℚ × ℚ × Bool

/-- A Learner collaborator: `act` models `sess.run(net.get_action_ops, ...)`
returning `(action, value estimate, log-prob)`; `v` models
`sess.run(net.v, ...)`. -/
structure Learner where
  act : List ℚ → List ℚ × ℚ × ℚ
  v : List ℚ → ℚ

/-- The mutable state of the main loop of `vpg`:
`obs, r, done, ep_ret, ep_len = env.reset(), 0, False, 0, 0` plus the buffer
and the environment's internal state. -/
structure LoopState (σ : Type) where
  envState : σ
  obs : List ℚ
  r : ℚ
  done : Bool
  ep_ret : ℚ
  ep_len : ℕ
  buf : Buffer
  deriving DecidableEq

/-- Initial loop state (`vpg.py` line 92):
`obs, r, done, ep_ret, ep_len = env.reset(), 0, False, 0, 0`. -/
def initLoopState {σ : Type} (world : World σ) (buf : Buffer) : LoopState σ :=
  { envState := world.resetState, obs := world.resetObs, r := 0, done := false,
    ep_ret := 0, ep_len := 0, buf := buf }

/-- Bootstrap selection of `vpg.py` line 117:
`last_val = r if done else sess.run(net.v, ...)`. -/
def bootstrapVal (done : Bool) (r vEst : ℚ) : ℚ :=
  if done then r else vEst

/-- One iteration of the inner loop of `vpg` (`vpg.py` lines 100-129) at step
index `step` within an epoch of `steps_per_epoch` steps: query the learner,
store `(obs, a, r, v_t, logp_t)`, step the World, and on a trajectory boundary
(`done or ep_len == max_ep_len or step == steps_per_epoch - 1`) finish the path
with `last_val = r if done else v(obs)` and reset the episode state. Returns
`none` when the store assertion fails. -/
def loopStep {σ : Type} (world : World σ) (learner : Learner)
    (steps_per_epoch max_ep_len : ℕ) (step : ℕ) (st : LoopState σ) :
    Option (LoopState σ) :=
  let (a, v_t, logp_t) := learner.act st.obs
  match st.buf.store st.obs a st.r v_t logp_t with
  | none => none
  | some buf1 =>
    let (es, obs2, r2, done2) := world.step st.envState a
    let ep_ret2 := st.ep_ret + r2
    let ep_len2 := st.ep_len + 1
    if done2 ∨ ep_len2 = max_ep_len ∨ step = steps_per_epoch - 1 then
      let last_val := bootstrapVal done2 r2 (learner.v obs2)
      some { envState := world.resetState, obs := world.resetObs, r := 0,
             done := false, ep_ret := 0, ep_len := 0,
             buf := buf1.finish_path last_val }
    else
      some { envState := es, obs := obs2, r := r2, done := done2,
             ep_ret := ep_ret2, ep_len := ep_len2, buf := buf1 }

theorem dcsRec_recurrence (d : ℚ) (x : List ℚ) (i : ℕ) (h : i + 1 < x.length) :
    (dcsRec d x).getD i 0 = x.getD i 0 + d * (dcsRec d x).getD (i + 1) 0 := by
  rw [dcsRec_getD, dcsRec_getD]
  have hdrop : x.drop i = x.getD i 0 :: x.drop (i + 1) := by
    have h1 : i < x.length := by omega
    rw [List.drop_eq_getElem_cons h1]
    congr 1
    rw [List.getD_eq_getElem?_getD, List.getElem?_eq_getElem h1]
    rfl
  rw [hdrop]
  rfl

/-- C2: for every input sequence `x` and discount `d`, `discount_cumsum x d`
(implemented via the `lfilter` recurrence over the reversed sequence) has the
same length as `x`, its last entry equals the last entry of `x`, it satisfies
the backward recurrence `y i = x i + d * y (i+1)`, its entry `i` equals the
discounted suffix sum `sum_j d^j * x (i+j)`, and in particular
`discount_cumsum [1,1,1] (1/2) = [7/4, 3/2, 1]`. -/
theorem claim_C2_discount_cumsum (x : List ℚ) (d : ℚ) :
    (discount_cumsum x d).length = x.length
    ∧ (x ≠ [] → (discount_cumsum x d).getD (x.length - 1) 0
        = x.getD (x.length - 1) 0)
    ∧ (∀ i, i + 1 < x.length →
        (discount_cumsum x d).getD i 0
          = x.getD i 0 + d * (discount_cumsum x d).getD (i + 1) 0)
    ∧ (∀ i, i < x.length →
        (discount_cumsum x d).getD i 0
          = ∑ j ∈ Finset.range (x.length - i), d ^ j * x.getD (i + j) 0)
    ∧ discount_cumsum [1, 1, 1] (1/2 : ℚ) = [7/4, 3/2, 1] := by
  refine ⟨discount_cumsum_length x d, ?_, ?_, ?_,
    by norm_num [discount_cumsum, lfilterStep]⟩
  · intro hne
    have hlen : 1 ≤ x.length := List.length_pos.mpr hne
    rw [discount_cumsum_getD x d (x.length - 1) (by omega)]
    have h1 : x.length - (x.length - 1) = 1 := by omega
    rw [h1, Finset.sum_range_one]
    simp
  · intro i hi
    rw [discount_cumsum_eq_dcsRec]
    exact dcsRec_recurrence d x i hi
  · intro i hi
    exact discount_cumsum_getD x d i hi

/-- Witness for C2: the backward recurrence at index 0 of the spec's concrete
example. -/
theorem claim_C2_discount_cumsum_witness :
    (discount_cumsum [(1 : ℚ), 1, 1] (1/2)).getD 0 0
      = [(1 : ℚ), 1, 1].getD 0 0
        + (1/2) * (discount_cumsum [(1 : ℚ), 1, 1] (1/2)).getD 1 0 :=
  (claim_C2_discount_cumsum [(1 : ℚ), 1, 1] (1/2)).2.2.1 0 (by decide)

/-- C4: `get_stats x` returns the 4-tuple `(mean, std, max, min)` where `mean`
is `sum x / N`, `std = ratSqrt ((sum (x - mean))^2 / N)` (the square of the sum
of centered values), `max`/`min` are the maximum/minimum of `x`; and because
`sum (x - mean) = 0` when the mean is computed from the same data, the returned
std equals 0 in exact arithmetic for every nonempty input. -/
theorem claim_C4_get_stats (x : List ℚ) (h : x ≠ []) :
    get_stats x = (x.sum / (x.length : ℚ),
        ratSqrt (((x.map (fun v => v - x.sum / (x.length : ℚ))).sum) ^ 2
          / (x.length : ℚ)),
        listMax x, listMin x)
    ∧ (x.map (fun v => v - x.sum / (x.length : ℚ))).sum = 0
    ∧ (get_stats x).2.1 = 0
    ∧ (get_stats x).2.2.1 ∈ x ∧ (∀ b ∈ x, b ≤ (get_stats x).2.2.1)
    ∧ (get_stats x).2.2.2 ∈ x ∧ (∀ b ∈ x, (get_stats x).2.2.2 ≤ b) := by
  refine ⟨rfl, sum_centered_eq_zero x h, get_stats_std_eq_zero x h,
    ?_, ?_, ?_, ?_⟩
  · exact listMax_mem x h
  · exact fun b hb => le_listMax x b hb
  · exact listMin_mem x h
  · exact fun b hb => listMin_le x b hb

/-- Witness for C4 at the nonempty input `[1, 2, 3]`. -/
theorem claim_C4_get_stats_witness :
    [(1 : ℚ), 2, 3] ≠ [] ∧ (get_stats [(1 : ℚ), 2, 3]).2.1 = 0 :=
  ⟨by decide, (claim_C4_get_stats [(1 : ℚ), 2, 3] (by decide)).2.2.1⟩

/-- Iterated `store` calls, one per tuple `(obs, act, rew, val, logp)`; `none`
as soon as one call fails its assertion. -/
def storeIter (b : Buffer) : List (List ℚ × List ℚ × ℚ × ℚ × ℚ) → Option Buffer
  | [] => some b
  | t :: ts =>
    match b.store t.1 t.2.1 t.2.2.1 t.2.2.2.1 t.2.2.2.2 with
    | none => none
    | some b2 => storeIter b2 ts

theorem storeIter_ok (xs : List (List ℚ × List ℚ × ℚ × ℚ × ℚ)) :
    ∀ (b : Buffer), b.ptr + xs.length ≤ b.max_size →
      ∃ b2, storeIter b xs = some b2 ∧ b2.ptr = b.ptr + xs.length
        ∧ b2.max_size = b.max_size := by
  induction xs with
  | nil => intro b _; exact ⟨b, rfl, by simp, rfl⟩
  | cons t ts ih =>
      intro b hb
      simp only [List.length_cons] at hb
      have hlt : b.ptr < b.max_size := by omega
      rw [storeIter, Buffer.store, if_pos hlt]
      obtain ⟨b2, h1, h2, h3⟩ := ih { b with
          obs_buf := b.obs_buf.set b.ptr t.1
          act_buf := b.act_buf.set b.ptr t.2.1
          rew_buf := b.rew_buf.set b.ptr t.2.2.1
          val_buf := b.val_buf.set b.ptr t.2.2.2.1
          logp_buf := b.logp_buf.set b.ptr t.2.2.2.2
          ptr := b.ptr + 1 }
        (by show b.ptr + 1 + ts.length ≤ b.max_size; omega)
      have h2a : b2.ptr = b.ptr + 1 + ts.length := h2
      have h3a : b2.max_size = b.max_size := h3
      refine ⟨b2, h1, ?_, h3a⟩
      rw [List.length_cons]
      omega

/-- C6: `store` succeeds exactly when `ptr < max_size`, in which case it writes
the five fields at index `ptr` and increments `ptr`; at `ptr = max_size` it
fails (assertion, modelled as `none`) with the buffer unmodified. Hence from a
fresh buffer, `store` succeeds exactly `capacity` times and the
`(capacity+1)`-th call fails. -/
theorem claim_C6_store (b : Buffer) (obs act : List ℚ) (rew val logp : ℚ) :
    (b.ptr < b.max_size →
      b.store obs act rew val logp = some { b with
        obs_buf := b.obs_buf.set b.ptr obs
        act_buf := b.act_buf.set b.ptr act
        rew_buf := b.rew_buf.set b.ptr rew
        val_buf := b.val_buf.set b.ptr val
        logp_buf := b.logp_buf.set b.ptr logp
        ptr := b.ptr + 1 })
    ∧ (b.max_size ≤ b.ptr → b.store obs act rew val logp = none)
    ∧ (∀ (od ad size : ℕ) (g l : ℚ) (xs : List (List ℚ × List ℚ × ℚ × ℚ × ℚ)),
        xs.length = size →
        ∃ b2, storeIter (Buffer.init od ad size g l) xs = some b2
          ∧ b2.ptr = size ∧ b2.store obs act rew val logp = none) := by
  refine ⟨fun h => by rw [Buffer.store, if_pos h],
    fun h => by rw [Buffer.store, if_neg (by omega)], ?_⟩
  intro od ad size g l xs hxs
  obtain ⟨b2, h1, h2, h3⟩ := storeIter_ok xs (Buffer.init od ad size g l)
    (by simp [Buffer.init, hxs])
  have h2a : b2.ptr = 0 + xs.length := h2
  have h3a : b2.max_size = size := h3
  refine ⟨b2, h1, by omega, ?_⟩
  rw [Buffer.store, if_neg (by omega)]

/-- Witness for C6 on a concrete capacity-1 buffer: the first store succeeds,
the second fails. -/
theorem claim_C6_store_witness :
    ∃ b2, storeIter (Buffer.init 1 1 1 (99/100) (97/100)) [([0], [0], 0, 0, 0)]
        = some b2
      ∧ b2.ptr = 1 ∧ b2.store [0] [0] 0 0 0 = none :=
  (claim_C6_store (Buffer.init 1 1 1 (99/100) (97/100)) [0] [0] 0 0 0).2.2
    1 1 1 (99/100) (97/100) [([0], [0], 0, 0, 0)] (by decide)

/-- C7: `get` fails exactly when `ptr ≠ max_size`; when `ptr = max_size` it
resets `ptr` and `path_start_idx` to 0 (buffer otherwise unchanged except for
the normalized advantage array) and returns the five parallel arrays
(observations, actions, normalized advantages, returns, log-probs), each of
length `capacity`, index-aligned with the stored timesteps. -/
theorem claim_C7_get (b : Buffer) (hWF : b.WF) :
    (b.ptr ≠ b.max_size → b.get = none)
    ∧ (b.ptr = b.max_size →
        b.get = some
          ({ b with
              ptr := 0
              path_start_idx := 0
              adv_buf := b.adv_buf.map (fun a =>
                (a - (get_stats b.adv_buf).1) / (get_stats b.adv_buf).2.1) },
           (b.obs_buf, b.act_buf,
            b.adv_buf.map (fun a =>
              (a - (get_stats b.adv_buf).1) / (get_stats b.adv_buf).2.1),
            b.ret_buf, b.logp_buf))
        ∧ b.obs_buf.length = b.max_size
        ∧ b.act_buf.length = b.max_size
        ∧ (b.adv_buf.map (fun a =>
            (a - (get_stats b.adv_buf).1) / (get_stats b.adv_buf).2.1)).length
            = b.max_size
        ∧ b.ret_buf.length = b.max_size
        ∧ b.logp_buf.length = b.max_size) := by
  constructor
  · intro h
    rw [Buffer.get, if_neg h]
  · intro h
    refine ⟨by rw [Buffer.get, if_pos h], hWF.1, hWF.2.1, ?_, hWF.2.2.2.2.2.1,
      hWF.2.2.2.2.2.2⟩
    rw [List.length_map]
    exact hWF.2.2.1

/-- Witness for C7: draining a full fresh capacity-2 buffer resets the cursor
and returns arrays of length 2. -/
theorem claim_C7_get_witness :
    ∃ p, ({ (Buffer.init 1 1 2 1 1) with ptr := 2 } : Buffer).get = some p
      ∧ p.1.ptr = 0 ∧ p.2.2.2.2.1.length = 2 := by
  have h := claim_C7_get ({ (Buffer.init 1 1 2 1 1) with ptr := 2 })
    (by exact ⟨rfl, rfl, rfl, rfl, rfl, rfl, rfl⟩)
  obtain ⟨hget, _, _, _, hret, _⟩ := h.2 rfl
  exact ⟨_, hget, rfl, hret⟩

/-- C8: the invariant `0 ≤ path_start_idx ≤ ptr ≤ max_size` holds after
construction and is preserved by every `store`, `finish_path` and `get` call
that satisfies its precondition. -/
theorem claim_C8_invariant :
    (∀ (od ad size : ℕ) (g l : ℚ), (Buffer.init od ad size g l).Inv)
    ∧ (∀ (b : Buffer) (obs act : List ℚ) (rew val logp : ℚ) (b2 : Buffer),
        b.Inv → b.store obs act rew val logp = some b2 → b2.Inv)
    ∧ (∀ (b : Buffer) (lv : ℚ), b.Inv → (b.finish_path lv).Inv)
    ∧ (∀ (b b2 : Buffer)
        (arrs : List (List ℚ) × List (List ℚ) × List ℚ × List ℚ × List ℚ),
        b.Inv → b.get = some (b2, arrs) → b2.Inv) := by
  refine ⟨?_, ?_, ?_, ?_⟩
  · intro od ad size g l
    exact ⟨Nat.le_refl 0, Nat.zero_le size⟩
  · intro b obs act rew val logp b2 hInv hstore
    by_cases h : b.ptr < b.max_size
    · rw [Buffer.store, if_pos h] at hstore
      cases hstore
      exact ⟨Nat.le_succ_of_le hInv.1, h⟩
    · rw [Buffer.store, if_neg h] at hstore
      cases hstore
  · intro b lv hInv
    exact ⟨Nat.le_refl b.ptr, hInv.2⟩
  · intro b b2 arrs hInv hget
    rw [Buffer.get] at hget
    split at hget
    · cases hget
      exact ⟨Nat.le_refl 0, Nat.zero_le _⟩
    · cases hget

/-- Witness for C8: the invariant after constructing a buffer and finishing an
empty path. -/
theorem claim_C8_invariant_witness :
    ((Buffer.init 1 1 4 (99/100) (95/100)).finish_path 0).Inv :=
  claim_C8_invariant.2.2.1 (Buffer.init 1 1 4 (99/100) (95/100)) 0
    (claim_C8_invariant.1 1 1 4 (99/100) (95/100))

/-- A concrete example buffer: capacity 2, one stored trajectory of length 2
pending finalization. -/
def exBuf : Buffer :=
  { obs_buf := [[0], [1]]
    act_buf := [[0], [0]]
    adv_buf := [0, 0]
    val_buf := [1/2, 1/4]
    rew_buf := [1, 2]
    ret_buf := [0, 0]
    logp_buf := [0, 0]
    gamma := 9/10
    lam := 1/2
    ptr := 2
    path_start_idx := 0
    max_size := 2 }

/-- C1: for the segment `[path_start_idx, ptr)` of length `n`, `finish_path`
forms `rews`/`vals` as the stored rewards/values of the segment with the
bootstrap appended (length `n+1`), writes
`adv_buf[path_start_idx+i] = discount_cumsum(deltas, gamma*lam)[i]` where
`deltas[i] = rews[i] + gamma*vals[i+1] - vals[i]`, writes
`ret_buf[path_start_idx+i] = discount_cumsum(rews, gamma)[i]` (the final
bootstrap-only element of that scan being dropped), and sets
`path_start_idx = ptr`. -/
theorem claim_C1_finish_path (b : Buffer) (last_val : ℚ)
    (hsp : b.path_start_idx ≤ b.ptr) (hpm : b.ptr ≤ b.max_size) (hWF : b.WF) :
    (b.pathRews last_val).length = (b.ptr - b.path_start_idx) + 1
    ∧ (b.pathVals last_val).length = (b.ptr - b.path_start_idx) + 1
    ∧ (∀ i, i < b.ptr - b.path_start_idx →
        (b.pathRews last_val).getD i 0 = b.rew_buf.getD (b.path_start_idx + i) 0)
    ∧ (b.pathRews last_val).getD (b.ptr - b.path_start_idx) 0 = last_val
    ∧ (∀ i, i < b.ptr - b.path_start_idx →
        (b.pathVals last_val).getD i 0 = b.val_buf.getD (b.path_start_idx + i) 0)
    ∧ (b.pathVals last_val).getD (b.ptr - b.path_start_idx) 0 = last_val
    ∧ (∀ i, i < b.ptr - b.path_start_idx →
        (b.pathDeltas last_val).getD i 0
          = (b.pathRews last_val).getD i 0
            + b.gamma * (b.pathVals last_val).getD (i + 1) 0
            - (b.pathVals last_val).getD i 0)
    ∧ (∀ i, i < b.ptr - b.path_start_idx →
        (b.finish_path last_val).adv_buf.getD (b.path_start_idx + i) 0
          = (discount_cumsum (b.pathDeltas last_val) (b.gamma * b.lam)).getD i 0)
    ∧ (∀ i, i < b.ptr - b.path_start_idx →
        (b.finish_path last_val).ret_buf.getD (b.path_start_idx + i) 0
          = (discount_cumsum (b.pathRews last_val) b.gamma).getD i 0)
    ∧ (b.finish_path last_val).path_start_idx = b.ptr := by
  have hpr : b.ptr ≤ b.rew_buf.length := by rw [hWF.2.2.2.2.1]; exact hpm
  have hpv : b.ptr ≤ b.val_buf.length := by rw [hWF.2.2.2.1]; exact hpm
  refine ⟨pathRews_length b last_val hsp hpr, pathVals_length b last_val hsp hpv,
    fun i hi => pathRews_getD_lt b last_val i hsp hpr hi,
    pathRews_getD_last b last_val hsp hpr,
    fun i hi => pathVals_getD_lt b last_val i hsp hpv hi,
    pathVals_getD_last b last_val hsp hpv,
    fun i hi => pathDeltas_getD b last_val i hsp hpr hpv hi, ?_, ?_, rfl⟩
  · intro i hi
    have h1 : i < (b.advSeg last_val).length := by
      rw [advSeg_length b last_val hsp hpr hpv]; exact hi
    have h2 : b.path_start_idx + i < b.adv_buf.length := by
      rw [hWF.2.2.1]; omega
    exact writeSlice_getD_inside (b.advSeg last_val) b.adv_buf
      b.path_start_idx i h1 h2
  · intro i hi
    have h1 : i < (b.retSeg last_val).length := by
      rw [retSeg_length b last_val hsp hpr]; exact hi
    have h2 : b.path_start_idx + i < b.ret_buf.length := by
      rw [hWF.2.2.2.2.2.1]; omega
    have h3 := writeSlice_getD_inside (b.retSeg last_val) b.ret_buf
      b.path_start_idx i h1 h2
    rw [retSeg_getD b last_val i hsp hpr hi] at h3
    exact h3

/-- Witness for C1 on the concrete example buffer, bootstrap value 2. -/
theorem claim_C1_finish_path_witness :
    (exBuf.finish_path 2).path_start_idx = exBuf.ptr
    ∧ (exBuf.finish_path 2).ret_buf.getD 0 0
      = (discount_cumsum (exBuf.pathRews 2) exBuf.gamma).getD 0 0 := by
  have h := claim_C1_finish_path exBuf 2 (by decide) (by decide)
    ⟨rfl, rfl, rfl, rfl, rfl, rfl, rfl⟩
  exact ⟨h.2.2.2.2.2.2.2.2.2, h.2.2.2.2.2.2.2.2.1 0 (by decide)⟩

/-- C9: `finish_path` is confined to its segment. It changes only the
`adv_buf`/`ret_buf` entries at indices in `[path_start_idx, ptr)` and
`path_start_idx` itself; the written values depend only on the segment's
stored rewards and values, `gamma`, `lam` and the bootstrap argument (two
buffers agreeing on those get identical written segments); and an empty
segment (`path_start_idx = ptr`) makes the call a no-op. -/
theorem claim_C9_finish_path_isolation (b : Buffer) (last_val : ℚ)
    (hsp : b.path_start_idx ≤ b.ptr) (hpm : b.ptr ≤ b.max_size) (hWF : b.WF) :
    ((b.finish_path last_val).obs_buf = b.obs_buf
      ∧ (b.finish_path last_val).act_buf = b.act_buf
      ∧ (b.finish_path last_val).rew_buf = b.rew_buf
      ∧ (b.finish_path last_val).val_buf = b.val_buf
      ∧ (b.finish_path last_val).logp_buf = b.logp_buf
      ∧ (b.finish_path last_val).ptr = b.ptr
      ∧ (b.finish_path last_val).max_size = b.max_size
      ∧ (b.finish_path last_val).gamma = b.gamma
      ∧ (b.finish_path last_val).lam = b.lam
      ∧ (b.finish_path last_val).adv_buf.length = b.adv_buf.length
      ∧ (b.finish_path last_val).ret_buf.length = b.ret_buf.length)
    ∧ (∀ i, (i < b.path_start_idx ∨ b.ptr ≤ i) →
        (b.finish_path last_val).adv_buf.getD i 0 = b.adv_buf.getD i 0
        ∧ (b.finish_path last_val).ret_buf.getD i 0 = b.ret_buf.getD i 0)
    ∧ (∀ (b2 : Buffer) (lv : ℚ),
        sliceList b2.rew_buf b2.path_start_idx b2.ptr
          = sliceList b.rew_buf b.path_start_idx b.ptr →
        sliceList b2.val_buf b2.path_start_idx b2.ptr
          = sliceList b.val_buf b.path_start_idx b.ptr →
        b2.gamma = b.gamma → b2.lam = b.lam →
        b2.advSeg lv = b.advSeg lv ∧ b2.retSeg lv = b.retSeg lv)
    ∧ (b.path_start_idx = b.ptr → b.finish_path last_val = b) := by
  have hpr : b.ptr ≤ b.rew_buf.length := by rw [hWF.2.2.2.2.1]; exact hpm
  have hpv : b.ptr ≤ b.val_buf.length := by rw [hWF.2.2.2.1]; exact hpm
  have hadvlen : (b.advSeg last_val).length = b.ptr - b.path_start_idx :=
    advSeg_length b last_val hsp hpr hpv
  have hretlen : (b.retSeg last_val).length = b.ptr - b.path_start_idx :=
    retSeg_length b last_val hsp hpr
  refine ⟨⟨rfl, rfl, rfl, rfl, rfl, rfl, rfl, rfl, rfl,
    writeSlice_length _ _ _, writeSlice_length _ _ _⟩, ?_, ?_, ?_⟩
  · intro i hi
    constructor
    · exact writeSlice_getD_outside (b.advSeg last_val) b.adv_buf
        b.path_start_idx i (by rw [hadvlen]; omega)
    · exact writeSlice_getD_outside (b.retSeg last_val) b.ret_buf
        b.path_start_idx i (by rw [hretlen]; omega)
  · intro b2 lv hr hv hg hl
    constructor
    · simp only [Buffer.advSeg, Buffer.pathDeltas, Buffer.pathRews,
        Buffer.pathVals, hr, hv, hg, hl]
    · simp only [Buffer.retSeg, Buffer.pathRews, hr, hg]
  · intro h
    have hslr : sliceList b.rew_buf b.path_start_idx b.ptr = [] := by
      have h0 : (sliceList b.rew_buf b.path_start_idx b.ptr).length = 0 := by
        rw [sliceList_length _ _ _ hsp hpr]; omega
      exact List.length_eq_zero.mp h0
    have hslv : sliceList b.val_buf b.path_start_idx b.ptr = [] := by
      have h0 : (sliceList b.val_buf b.path_start_idx b.ptr).length = 0 := by
        rw [sliceList_length _ _ _ hsp hpv]; omega
      exact List.length_eq_zero.mp h0
    have hadv : b.advSeg last_val = [] := by
      unfold Buffer.advSeg Buffer.pathDeltas Buffer.pathRews Buffer.pathVals
      rw [hslr, hslv]
      rfl
    have hret : b.retSeg last_val = [] := by
      unfold Buffer.retSeg Buffer.pathRews
      rw [hslr]
      rfl
    have heq : b.finish_path last_val = { b with path_start_idx := b.ptr } := by
      unfold Buffer.finish_path
      rw [hadv, hret]
      rfl
    rw [heq]
    obtain ⟨o, a, ad, v, r, re, lp, g, lm, p, ps, ms⟩ := b
    simp only at h ⊢
    subst h
    rfl

/-- Witness for C9: with the segment starting at index 1, the derived entry at
index 0 (outside the segment) is untouched by `finish_path`. -/
theorem claim_C9_finish_path_isolation_witness :
    (({ exBuf with path_start_idx := 1 } : Buffer).finish_path 0).adv_buf.getD 0 0
      = ({ exBuf with path_start_idx := 1 } : Buffer).adv_buf.getD 0 0 := by
  have h := claim_C9_finish_path_isolation ({ exBuf with path_start_idx := 1 }) 0
    (by decide) (by decide) ⟨rfl, rfl, rfl, rfl, rfl, rfl, rfl⟩
  exact (h.2.1 0 (Or.inl (by decide))).1

/-- A concrete full buffer whose advantage array `[1, 2, 3]` has nonzero
(textbook) variance, exhibiting the degenerate normalization in `get`. -/
def exAdvBuf : Buffer :=
  { obs_buf := [[0], [0], [0]]
    act_buf := [[0], [0], [0]]
    adv_buf := [1, 2, 3]
    val_buf := [0, 0, 0]
    rew_buf := [0, 0, 0]
    ret_buf := [0, 0, 0]
    logp_buf := [0, 0, 0]
    gamma := 9/10
    lam := 1/2
    ptr := 3
    path_start_idx := 0
    max_size := 3 }

/-- C5 is refuted by the code: the advantage array `[1, 2, 3]` has
non-degenerate variance (`popVariance = 2/3`), yet the std computed by
`get_stats` is exactly 0 in exact arithmetic, so `get` divides by zero
(in this rational model yielding the all-zero normalized array, under IEEE
infinities/NaNs) and the normalized advantages have variance 0, not 1. This
contradicts `get`'s own docstring ("shifted to have mean zero and std one"),
so the defect lies in the code (`get_stats`'s squared-sum-of-centered-values
formula), not in the claim's intent. -/
theorem claim_C5_normalization_defect :
    popVariance [(1 : ℚ), 2, 3] = 2/3
    ∧ (get_stats [(1 : ℚ), 2, 3]).2.1 = 0
    ∧ (exAdvBuf.get).map (fun p => p.2.2.2.1) = some [0, 0, 0]
    ∧ popVariance [(0 : ℚ), 0, 0] = 0
    ∧ (1 : ℚ) ≠ 0 := by
  refine ⟨by norm_num [popVariance],
    get_stats_std_eq_zero [(1 : ℚ), 2, 3] (by decide), ?_,
    by norm_num [popVariance], by norm_num⟩
  have hstd : (get_stats [(1 : ℚ), 2, 3]).2.1 = 0 :=
    get_stats_std_eq_zero [(1 : ℚ), 2, 3] (by decide)
  have hmean : (get_stats [(1 : ℚ), 2, 3]).1 = 2 := by
    show ([(1 : ℚ), 2, 3].sum / 3 : ℚ) = 2
    norm_num
  show some ([(1 : ℚ), 2, 3].map (fun a =>
    (a - (get_stats [(1 : ℚ), 2, 3]).1) / (get_stats [(1 : ℚ), 2, 3]).2.1))
    = some [0, 0, 0]
  simp only [hstd, hmean]
  norm_num

/-- A concrete single-step World over trivial internal state: the only
transition yields reward 1 and `done = true`. -/
def exWorld : World Unit :=
  { resetState := ()
    resetObs := [0]
    step := fun _ _ => ((), [1], 1, true) }

/-- A concrete Learner: constant action `[0]`, value estimate `1/2`, log-prob
0; `v` returns 5 everywhere. -/
def exLearner : Learner :=
  { act := fun _ => ([0], 1/2, 0)
    v := fun _ => 5 }

/-- A fresh capacity-1 buffer with `gamma = lam = 1` for the loop example. -/
def exLoopBuf : Buffer := Buffer.init 1 1 1 1 1

/-- The buffer after the single store performed by the loop on `exLoopBuf`:
`store([0], [0], 0, 1/2, 0)`. -/
def exStoredBuf : Buffer :=
  { obs_buf := [[0]]
    act_buf := [[0]]
    adv_buf := [0]
    val_buf := [1/2]
    rew_buf := [0]
    ret_buf := [0]
    logp_buf := [0]
    gamma := 1
    lam := 1
    ptr := 1
    path_start_idx := 0
    max_size := 1 }

/-- Counterexample to C3 as stated: on a boundary where `done` is true with
final reward 1, the orchestrator calls `finish_path` with bootstrap value 1
(the reward of the terminal transition, `vpg.py` line 117: `last_val = r if
done else ...`), not 0; the resulting returns array is `[1]`, while a
bootstrap of 0 would give `[0]`. -/
theorem claim_C3_counterexample :
    (loopStep exWorld exLearner 1 1000 0 (initLoopState exWorld exLoopBuf)).map
        (fun s => s.buf)
      = some (exStoredBuf.finish_path 1)
    ∧ exLoopBuf.store [0] [0] 0 (1/2) 0 = some exStoredBuf
    ∧ (exWorld.step () [0]).2.2.2 = true
    ∧ (exStoredBuf.finish_path 1).ret_buf = [1]
    ∧ (exStoredBuf.finish_path 0).ret_buf = [0] := by
  refine ⟨rfl, rfl, rfl, ?_, ?_⟩
  · show writeSlice exStoredBuf.ret_buf 0 (exStoredBuf.retSeg 1) = [1]
    norm_num [exStoredBuf, Buffer.retSeg, Buffer.pathRews, sliceList,
      discount_cumsum, lfilterStep, writeSlice]
  · show writeSlice exStoredBuf.ret_buf 0 (exStoredBuf.retSeg 0) = [0]
    norm_num [exStoredBuf, Buffer.retSeg, Buffer.pathRews, sliceList,
      discount_cumsum, lfilterStep, writeSlice]

/-- C3 amended: at a trajectory boundary the orchestrator calls `finish_path`
with bootstrap value `r` — the reward returned by the final World transition —
when `done` is true, and with the Learner's value estimate for the final
observation when the trajectory was truncated by the max-length cap or the
epoch boundary. -/
theorem claim_C3_bootstrap_amended {σ : Type} (w : World σ) (L : Learner)
    (spe mel stp : ℕ) (st : LoopState σ) (a : List ℚ) (v_t logp_t : ℚ)
    (hact : L.act st.obs = (a, v_t, logp_t))
    (buf1 : Buffer) (hstore : st.buf.store st.obs a st.r v_t logp_t = some buf1) :
    (∀ es obs2 r2, w.step st.envState a = (es, obs2, r2, true) →
      loopStep w L spe mel stp st
        = some { envState := w.resetState, obs := w.resetObs, r := 0,
                 done := false, ep_ret := 0, ep_len := 0,
                 buf := buf1.finish_path r2 })
    ∧ (∀ es obs2 r2, w.step st.envState a = (es, obs2, r2, false) →
        (st.ep_len + 1 = mel ∨ stp = spe - 1) →
        loopStep w L spe mel stp st
          = some { envState := w.resetState, obs := w.resetObs, r := 0,
                   done := false, ep_ret := 0, ep_len := 0,
                   buf := buf1.finish_path (L.v obs2) }) := by
  constructor
  · intro es obs2 r2 hstep
    simp only [loopStep, hact, hstore, hstep]
    simp [bootstrapVal]
  · intro es obs2 r2 hstep hbd
    simp only [loopStep, hact, hstore, hstep]
    rw [if_pos (Or.inr hbd)]
    simp [bootstrapVal]

/-- Witness for the amended C3 on the concrete one-step example: the loop's
buffer equals `finish_path` with bootstrap 1, the terminal reward. -/
theorem claim_C3_bootstrap_amended_witness :
    loopStep exWorld exLearner 1 1000 0 (initLoopState exWorld exLoopBuf)
      = some { envState := exWorld.resetState, obs := exWorld.resetObs, r := 0,
               done := false, ep_ret := 0, ep_len := 0,
               buf := exStoredBuf.finish_path 1 } :=
  (claim_C3_bootstrap_amended exWorld exLearner 1 1000 0
    (initLoopState exWorld exLoopBuf) [0] (1/2) 0 rfl exStoredBuf rfl).1
    () [1] 1 rfl

/-- C10: the reward passed to `store` in an iteration is the loop state's
carried reward `r` — the reward returned by the previous World transition (0
at run start and immediately after every reset). After a boundary the state's
`r` is reset to 0 along with the World, so the next store receives 0; after a
non-boundary step the transition's reward becomes the next store's reward.
The reward of a `done` transition is therefore never written to `rew_buf`
(which, after the iteration, is exactly the pre-step buffer with `r` written
at the old cursor) and enters only as `finish_path`'s bootstrap argument. -/
theorem claim_C10_reward_delay {σ : Type} (w : World σ) (L : Learner)
    (spe mel stp : ℕ) (st : LoopState σ) (a : List ℚ) (v_t logp_t : ℚ)
    (hact : L.act st.obs = (a, v_t, logp_t))
    (buf1 : Buffer) (hstore : st.buf.store st.obs a st.r v_t logp_t = some buf1) :
    (initLoopState w st.buf).r = 0
    ∧ buf1.rew_buf = st.buf.rew_buf.set st.buf.ptr st.r
    ∧ (∀ st2, loopStep w L spe mel stp st = some st2 →
        st2.buf.rew_buf = st.buf.rew_buf.set st.buf.ptr st.r)
    ∧ (∀ es obs2 r2 d2, w.step st.envState a = (es, obs2, r2, d2) →
        (d2 = true ∨ st.ep_len + 1 = mel ∨ stp = spe - 1) →
        ∃ st2, loopStep w L spe mel stp st = some st2
          ∧ st2.r = 0 ∧ st2.obs = w.resetObs
          ∧ st2.buf = buf1.finish_path (bootstrapVal d2 r2 (L.v obs2)))
    ∧ (∀ es obs2 r2, w.step st.envState a = (es, obs2, r2, false) →
        st.ep_len + 1 ≠ mel → stp ≠ spe - 1 →
        ∃ st2, loopStep w L spe mel stp st = some st2 ∧ st2.r = r2
          ∧ st2.buf = buf1) := by
  have hrew : buf1.rew_buf = st.buf.rew_buf.set st.buf.ptr st.r := by
    by_cases h : st.buf.ptr < st.buf.max_size
    · rw [Buffer.store, if_pos h] at hstore
      cases hstore
      rfl
    · rw [Buffer.store, if_neg h] at hstore
      cases hstore
  refine ⟨rfl, hrew, ?_, ?_, ?_⟩
  · intro st2 h2
    rcases hws : w.step st.envState a with ⟨es, obs2, r2, d2⟩
    simp only [loopStep, hact, hstore, hws] at h2
    split at h2
    · cases h2
      exact hrew
    · cases h2
      exact hrew
  · intro es obs2 r2 d2 hws hbd
    exact ⟨{ envState := w.resetState, obs := w.resetObs, r := 0, done := false,
             ep_ret := 0, ep_len := 0,
             buf := buf1.finish_path (bootstrapVal d2 r2 (L.v obs2)) },
           by simp only [loopStep, hact, hstore, hws]; rw [if_pos hbd],
           rfl, rfl, rfl⟩
  · intro es obs2 r2 hws hne1 hne2
    exact ⟨{ envState := es, obs := obs2, r := r2, done := false,
             ep_ret := st.ep_ret + r2, ep_len := st.ep_len + 1, buf := buf1 },
           by
             simp only [loopStep, hact, hstore, hws]
             rw [if_neg (by simp [hne1, hne2])],
           rfl, rfl⟩

/-- Witness for C10 on the concrete one-step example: the stored reward buffer
is the fresh buffer's with the carried reward 0 written at the cursor. -/
theorem claim_C10_reward_delay_witness :
    exStoredBuf.rew_buf
      = (initLoopState exWorld exLoopBuf).buf.rew_buf.set
          (initLoopState exWorld exLoopBuf).buf.ptr
          (initLoopState exWorld exLoopBuf).r :=
  (claim_C10_reward_delay exWorld exLearner 1 1000 0
    (initLoopState exWorld exLoopBuf) [0] (1/2) 0 rfl exStoredBuf rfl).2.1

end MujocoAgents
